import Mathlib

/-!
Shallow embedding of the pen-tool drawing widget (`src/pen-tool.ts`, plus the
JS build of the same widget for the tool controller).  SVG path elements are
modelled as records holding their `d` attribute (a list of points), their
`stroke-width` attribute and their `stroke` colour attribute; object identity
of path elements (needed because the live eraser stroke and `currentPath`
alias the same element) is modelled by a heap of elements indexed by a
freshness counter `nextId`.  `Date.now()` is modelled by an explicit `now`
argument to every handler that reads the clock.
-/

namespace PenToolModel

structure Point where
  x : Int
  y : Int
deriving DecidableEq

inductive StrokeType where
  | pen
  | eraser
deriving DecidableEq

/-- Boolean pen-kind test (the pen/eraser comparison used by the partition
in `renderStrokes`). -/
def StrokeType.isPen : StrokeType → Bool
  | .pen => true
  | .eraser => false

/-- An SVG path element: its `d` attribute (list of points of the polyline),
its `stroke-width` attribute and its `stroke` colour attribute. -/
structure PathElem where
  d : List Point
  widthAttr : Nat
  colorAttr : Option String
deriving DecidableEq

/-- One entry of the `strokes` array (`interface Stroke`): the element is a
reference into the element heap. `isTemporary` is optional in the source and
absent means false. -/
structure StrokeRec where
  type : StrokeType
  elemId : Nat
  timestamp : Nat
  isTemporary : Bool
deriving DecidableEq

/-- The mutable fields of the `PenTool` class that the stroke model and
compositor read or write. -/
structure PenState where
  elems : List (Nat × PathElem)
  nextId : Nat
  isDrawing : Bool
  currentPath : Option Nat
  currentPathData : List Point
  strokes : List StrokeRec
  temporaryEraserStroke : Option Nat
  currentTool : StrokeType
  lineWidth : Nat
  lineColor : String
  eraserWidth : Nat
deriving DecidableEq

/-- Dereference a path element id in the heap (total, with an inert default
for dangling ids, which never occur in reachable states). -/
def lookupD : List (Nat × PathElem) → Nat → PathElem
  | [], _ => { d := [], widthAttr := 0, colorAttr := none }
  | q :: qs, i => if q.1 = i then q.2 else lookupD qs i

/-- Writes the path data attribute of the element with id `i` (models the
setAttribute call on that element). -/
def setElemD : List (Nat × PathElem) → Nat → List Point → List (Nat × PathElem)
  | [], _, _ => []
  | q :: qs, i, d =>
      (if q.1 = i then (q.1, { q.2 with d := d }) else q) :: setElemD qs i d

/-- Stable insertion of a stroke into a timestamp-sorted list: the inserted
stroke goes before the first stroke with an equal or larger timestamp, so
earlier array positions win ties, exactly like the (stable, per ES2019)
in-place `strokes.sort((a, b) => a.timestamp - b.timestamp)`. -/
def insertByTs (x : StrokeRec) : List StrokeRec → List StrokeRec
  | [] => [x]
  | y :: ys => if x.timestamp ≤ y.timestamp then x :: y :: ys else y :: insertByTs x ys

/-- The stable sort by timestamp performed at the top of `renderStrokes`. -/
def sortByTs : List StrokeRec → List StrokeRec
  | [] => []
  | x :: xs => insertByTs x (sortByTs xs)

/-- The pen-stroke side of the `forEach` partition in `renderStrokes`
(preserves the sorted order). -/
def penStrokesOf (l : List StrokeRec) : List StrokeRec :=
  l.filter (fun r => r.type.isPen)

/-- The eraser-stroke side of the `forEach` partition in `renderStrokes`. -/
def eraserStrokesOf (l : List StrokeRec) : List StrokeRec :=
  l.filter (fun r => !r.type.isPen)

/-- Models the filter keeping erasers whose timestamp strictly exceeds the
timestamp of the pen stroke. -/
def applicableErasers (l : List StrokeRec) (d : StrokeRec) : List StrokeRec :=
  (eraserStrokesOf l).filter (fun e => decide (d.timestamp < e.timestamp))

/-- One eraser path as it ends up inside a mask: its geometry, and the
stroke-width attribute that `renderStrokes` stamps on the clone. -/
structure ClipEntry where
  d : List Point
  width : Nat
deriving DecidableEq

/-- One entry of the render plan: the cloned pen element (geometry, width,
colour) together with the list of eraser paths of its mask (empty when the
pen stroke is appended unmasked). -/
structure PlanEntry where
  penD : List Point
  penWidth : Nat
  penColor : Option String
  clip : List ClipEntry
deriving DecidableEq

/-- The plan entry `renderStrokes` produces for the pen stroke `pst`, given
the sorted strokes list: the cloned pen element, masked by every applicable
eraser, each eraser clone re-stamped with the *current* `this.eraserWidth`. -/
def planEntryFor (s : PenState) (sorted : List StrokeRec) (pst : StrokeRec) : PlanEntry :=
  { penD := (lookupD s.elems pst.elemId).d
    penWidth := (lookupD s.elems pst.elemId).widthAttr
    penColor := (lookupD s.elems pst.elemId).colorAttr
    clip := (applicableErasers sorted pst).map
      (fun e => { d := (lookupD s.elems e.elemId).d, width := s.eraserWidth }) }

/-- The render plan `renderStrokes` paints: the pen strokes in sorted order,
each with its mask content. -/
def renderPlan (s : PenState) : List PlanEntry :=
  (penStrokesOf (sortByTs s.strokes)).map (planEntryFor s (sortByTs s.strokes))

/-- The state effect of `renderStrokes`: the in-place sort of the strokes
array (the DOM output is captured separately by `renderPlan`). -/
def renderStrokes (s : PenState) : PenState :=
  { s with strokes := sortByTs s.strokes }

/-- Models `startDrawing(x, y)`: create a fresh pen path element with the current
line width and colour and a one-point path, and make it the current path. -/
def startDrawing (s : PenState) (p : Point) : PenState :=
  let elem : PathElem := { d := [p], widthAttr := s.lineWidth, colorAttr := some s.lineColor }
  { s with elems := s.elems ++ [(s.nextId, elem)]
           currentPath := some s.nextId
           currentPathData := [p]
           nextId := s.nextId + 1 }

/-- Models `continueDrawing(x, y)`: append a line-to to the current path data and
write it back to the current path element; no-op when there is none. -/
def continueDrawing (s : PenState) (p : Point) : PenState :=
  match s.currentPath with
  | none => s
  | some i =>
      let d := s.currentPathData ++ [p]
      { s with currentPathData := d, elems := setElemD s.elems i d }

/-- Models `startErasing(x, y)`: create a fresh eraser path element (stroke-width
snapshot of the current eraser width), push a temporary eraser stroke
stamped `Date.now()` into the strokes array, and re-render. -/
def startErasing (s : PenState) (now : Nat) (p : Point) : PenState :=
  let elem : PathElem := { d := [p], widthAttr := s.eraserWidth, colorAttr := none }
  let i := s.nextId
  let temp : StrokeRec := { type := .eraser, elemId := i, timestamp := now, isTemporary := true }
  renderStrokes
    { s with elems := s.elems ++ [(i, elem)]
             currentPath := some i
             currentPathData := [p]
             nextId := i + 1
             temporaryEraserStroke := some i
             strokes := s.strokes ++ [temp] }

/-- Models `continueErasing(x, y)`: extend the current path data, write it to the
current path element, and, when the temporary eraser stroke exists, also to
its element (the same element) followed by a re-render. -/
def continueErasing (s : PenState) (p : Point) : PenState :=
  match s.currentPath with
  | none => s
  | some i =>
      let d := s.currentPathData ++ [p]
      let s1 := { s with currentPathData := d, elems := setElemD s.elems i d }
      match s.temporaryEraserStroke with
      | none => s1
      | some j => renderStrokes { s1 with elems := setElemD s1.elems j d }

/-- Models `handleDrawStart` (and the body of `handleTouchStart` after its
single-touch guard): set `isDrawing` and dispatch on the current tool. -/
def handleDrawStart (s : PenState) (now : Nat) (p : Point) : PenState :=
  let s1 := { s with isDrawing := true }
  match s1.currentTool with
  | .pen => startDrawing s1 p
  | .eraser => startErasing s1 now p

/-- Models `handleDrawMove` (and the body of `handleTouchMove`): early return when
not drawing, else dispatch on the current tool. -/
def handleDrawMove (s : PenState) (p : Point) : PenState :=
  if s.isDrawing = false then s
  else
    match s.currentTool with
    | .pen => continueDrawing s p
    | .eraser => continueErasing s p

/-- Models `handleDrawEnd`: early return when not drawing; otherwise, when a current
path exists, drop every temporary stroke (when the temporary eraser
reference is set), push the completed stroke stamped with `Date.now()` at
end time, re-render; finally reset `isDrawing` and `currentPath`. -/
def handleDrawEnd (s : PenState) (now : Nat) : PenState :=
  if s.isDrawing = false then s
  else
    let s1 :=
      match s.currentPath with
      | none => s
      | some i =>
          let s2 :=
            if s.temporaryEraserStroke.isSome then
              { s with strokes := s.strokes.filter (fun r => !r.isTemporary)
                       temporaryEraserStroke := none }
            else s
          let committed : StrokeRec :=
            { type := s.currentTool, elemId := i, timestamp := now, isTemporary := false }
          renderStrokes { s2 with strokes := s2.strokes ++ [committed] }
    { s1 with isDrawing := false, currentPath := none }

/-- Models `clearAll()`: empties the strokes array (and the DOM container and defs,
which live outside this model); it touches none of `isDrawing`,
`currentPath`, `currentPathData`, `temporaryEraserStroke`. -/
def clearAll (s : PenState) : PenState :=
  { s with strokes := [] }

/-- The optional fields of `updateOptions` that affect stroke data. -/
structure UpdateOpts where
  lineWidth : Option Nat
  lineColor : Option String
  eraserWidth : Option Nat

/-- Models `updateOptions(options)`: overwrite each configuration field that is
present (toolbar position and z-index are outside this model). -/
def updateOptions (s : PenState) (o : UpdateOpts) : PenState :=
  let s1 := match o.lineWidth with
    | some w => { s with lineWidth := w }
    | none => s
  let s2 := match o.lineColor with
    | some c => { s1 with lineColor := c }
    | none => s1
  match o.eraserWidth with
  | some w => { s2 with eraserWidth := w }
  | none => s2

/-- The toolbar click handler for the pen/eraser buttons: sets
`this.currentTool`. -/
def setTool (s : PenState) (t : StrokeType) : PenState :=
  { s with currentTool := t }

/-- The raw events the widget listens to. `touches` is the length of
`event.touches`. -/
inductive PEvent where
  | mouseDown (now : Nat) (p : Point)
  | mouseMove (p : Point)
  | mouseUp (now : Nat)
  | touchStart (now : Nat) (touches : Nat) (p : Point)
  | touchMove (touches : Nat) (p : Point)
  | touchEnd (now : Nat)
  | touchCancel (now : Nat)

/-- Event dispatch as wired in `addEventListeners`: `touchend` and
`touchcancel` are both bound to `handleTouchEnd`, which forwards to
`handleDrawEnd`; the touch handlers ignore multi-touch events. -/
def step (s : PenState) : PEvent → PenState
  | .mouseDown now p => handleDrawStart s now p
  | .mouseMove p => handleDrawMove s p
  | .mouseUp now => handleDrawEnd s now
  | .touchStart now n p => if n = 1 then handleDrawStart s now p else s
  | .touchMove n p => if n = 1 then handleDrawMove s p else s
  | .touchEnd now => handleDrawEnd s now
  | .touchCancel now => handleDrawEnd s now

/-- Apply a list of mouse-move events in order. -/
def applyMoves (s : PenState) (ps : List Point) : PenState :=
  ps.foldl (fun st p => step st (.mouseMove p)) s

/-- The state right after the constructor with default options
(line width 3, line colour "#000000", eraser width 15, pen selected),
parametrised by the initially selected tool to shorten scenarios. -/
def initState (tool : StrokeType) : PenState :=
  { elems := []
    nextId := 0
    isDrawing := false
    currentPath := none
    currentPathData := []
    strokes := []
    temporaryEraserStroke := none
    currentTool := tool
    lineWidth := 3
    lineColor := "#000000"
    eraserWidth := 15 }

/-- The tool-controller state of the JS build (`part_000`): the enabled flag
and the current tool name. -/
structure ToolState where
  isEnabled : Bool
  currentTool : String
deriving DecidableEq

/-- The `validTools` array of `setActiveTool`. -/
def validTools : List String := ["pen", "eraser", "hand"]

/-- Models `setActiveTool(toolName)` from the JS build: early return (warn) when
disabled, early return (error) when the name is not in `validTools`,
otherwise set `this.currentTool` (the DOM/CSS effects are outside the
model). -/
def setActiveTool (s : ToolState) (toolName : String) : ToolState :=
  if s.isEnabled = false then s
  else if toolName ∈ validTools then { s with currentTool := toolName }
  else s

/-- Models `getCurrentTool()` from the JS build. -/
def getCurrentTool (s : ToolState) : String :=
  s.currentTool

/-! Concrete event scenarios used by counterexamples and witnesses. -/

/-- C2 scenario, live part: erase session opened by a touch at clock 10. -/
def c2Live : PenState := step (initState .eraser) (.touchStart 10 1 ⟨0, 0⟩)

/-- C2 scenario, committed part: the same session ended at clock 20. -/
def c2Done : PenState := step c2Live (.touchEnd 20)

/-- C2 scenario, pen variant: a pen session opened at clock 10 and ended at
clock 20. -/
def c2PenDone : PenState :=
  step (step (initState .pen) (.mouseDown 10 ⟨0, 0⟩)) (.mouseUp 20)

/-- C3 scenario: a first erase session opened at clock 5. -/
def c3One : PenState := step (initState .eraser) (.mouseDown 5 ⟨0, 0⟩)

/-- C3 scenario: a second erase session opened at clock 6 with no intervening
session end. -/
def c3Two : PenState := step c3One (.mouseDown 6 ⟨1, 1⟩)

/-- C4 scenario: one committed pen stroke (timestamp 2). -/
def c4Pen : PenState :=
  step (step (step (initState .pen) (.mouseDown 1 ⟨0, 0⟩)) (.mouseMove ⟨10, 0⟩)) (.mouseUp 2)

/-- C4 scenario: additionally one committed eraser stroke (timestamp 4),
created while `eraserWidth = 15`. -/
def c4Erased : PenState :=
  step (step (setTool c4Pen .eraser) (.mouseDown 3 ⟨5, 0⟩)) (.mouseUp 4)

/-- C4 scenario: `updateOptions({eraserWidth: 99})` after both strokes
exist. -/
def c4After : PenState :=
  updateOptions c4Erased { lineWidth := none, lineColor := none, eraserWidth := some 99 }

/-- C5 scenario: a pen session opened at clock 5 (one captured point). -/
def c5Mid : PenState := step (initState .pen) (.mouseDown 5 ⟨1, 2⟩)

/-- C5 scenario: `clearAll()` invoked mid-session. -/
def c5Cleared : PenState := clearAll c5Mid

/-- C5 scenario: the session-ending mouse-up after the mid-session clear. -/
def c5Resurrected : PenState := step c5Cleared (.mouseUp 6)

/-- C6 witness scenario: three pen sessions committed in sequence at clocks
1, 1, 2 (a tie included). -/
def c6State : PenState :=
  step (step (step (step (step (step (initState .pen)
    (.mouseDown 1 ⟨0, 0⟩)) (.mouseUp 1))
    (.mouseDown 1 ⟨1, 0⟩)) (.mouseUp 1))
    (.mouseDown 2 ⟨2, 0⟩)) (.mouseUp 2)

/-- C1 witness scenario: a store with one pen stroke (timestamp 1), one
strictly later eraser stroke (timestamp 2) and one earlier eraser stroke
(timestamp 0). -/
def c1State : PenState :=
  { elems := [(0, { d := [⟨0, 0⟩, ⟨10, 0⟩], widthAttr := 3, colorAttr := some "#000000" }),
              (1, { d := [⟨5, 0⟩], widthAttr := 15, colorAttr := none }),
              (2, { d := [⟨7, 0⟩], widthAttr := 15, colorAttr := none })]
    nextId := 3
    isDrawing := false
    currentPath := none
    currentPathData := []
    strokes := [{ type := .pen, elemId := 0, timestamp := 1, isTemporary := false },
                { type := .eraser, elemId := 1, timestamp := 2, isTemporary := false },
                { type := .eraser, elemId := 2, timestamp := 0, isTemporary := false }]
    temporaryEraserStroke := none
    currentTool := .pen
    lineWidth := 3
    lineColor := "#000000"
    eraserWidth := 15 }

/-- The heap holds an element with id `i` (object-identity bookkeeping for
the aliasing between `currentPath` and the element of the live stroke). -/
def hasId (es : List (Nat × PathElem)) (i : Nat) : Prop :=
  ∃ q ∈ es, q.1 = i

/-! Helper lemmas about the stable sort and the element heap. -/

theorem lookupD_append_fresh (es : List (Nat × PathElem)) (n : Nat) (e0 : PathElem)
    (hfresh : ∀ q ∈ es, q.1 ≠ n) : lookupD (es ++ [(n, e0)]) n = e0 := by
  induction es with
  | nil => simp [lookupD]
  | cons q qs ih =>
    have hq : q.1 ≠ n := hfresh q (by simp)
    simp only [List.cons_append, lookupD, if_neg hq]
    exact ih (fun r hr => hfresh r (by simp [hr]))

theorem hasId_setElemD (es : List (Nat × PathElem)) (i j : Nat) (d : List Point)
    (h : hasId es i) : hasId (setElemD es j d) i := by
  induction es with
  | nil => rcases h with ⟨q, hq, _⟩; simp at hq
  | cons q qs ih =>
    rcases h with ⟨r, hr, hri⟩
    rcases List.mem_cons.mp hr with h3 | h3
    · subst h3
      by_cases hqj : r.1 = j
      · exact ⟨(r.1, { r.2 with d := d }), by simp [setElemD, hqj], hri⟩
      · exact ⟨r, by simp [setElemD, hqj], hri⟩
    · rcases ih ⟨r, h3, hri⟩ with ⟨r2, hr2, hr2i⟩
      exact ⟨r2, by simp [setElemD]; right; exact hr2, hr2i⟩

theorem lookupD_setElemD_self (es : List (Nat × PathElem)) (i : Nat) (d : List Point)
    (h : hasId es i) : lookupD (setElemD es i d) i = { lookupD es i with d := d } := by
  induction es with
  | nil => rcases h with ⟨q, hq, _⟩; simp at hq
  | cons q qs ih =>
    by_cases hqi : q.1 = i
    · simp [setElemD, lookupD, hqi]
    · have h2 : hasId qs i := by
        rcases h with ⟨r, hr, hri⟩
        rcases List.mem_cons.mp hr with h3 | h3
        · exact absurd (h3 ▸ hri) hqi
        · exact ⟨r, h3, hri⟩
      simp [setElemD, lookupD, hqi, ih h2]

theorem mem_insertByTs {a x : StrokeRec} {l : List StrokeRec} :
    a ∈ insertByTs x l ↔ a = x ∨ a ∈ l := by
  induction l with
  | nil => simp [insertByTs]
  | cons y ys ih =>
    by_cases h : x.timestamp ≤ y.timestamp
    · simp [insertByTs, h]
    · simp only [insertByTs, if_neg h, List.mem_cons, ih]
      tauto

theorem mem_sortByTs {a : StrokeRec} {l : List StrokeRec} :
    a ∈ sortByTs l ↔ a ∈ l := by
  induction l with
  | nil => simp [sortByTs]
  | cons x xs ih => simp [sortByTs, mem_insertByTs, ih]

theorem insertByTs_of_le (x y : StrokeRec) (ys : List StrokeRec)
    (h : x.timestamp ≤ y.timestamp) : insertByTs x (y :: ys) = x :: y :: ys := by
  simp [insertByTs, h]

theorem sortByTs_eq_self (l : List StrokeRec)
    (h : List.Pairwise (fun a b => a.timestamp ≤ b.timestamp) l) : sortByTs l = l := by
  induction l with
  | nil => rfl
  | cons x xs ih =>
    rcases List.pairwise_cons.mp h with ⟨hx, hxs⟩
    rw [sortByTs, ih hxs]
    cases xs with
    | nil => rfl
    | cons y ys => exact insertByTs_of_le x y ys (hx y (by simp))

theorem handleDrawEnd_not_drawing (s : PenState) (t : Nat) (h : s.isDrawing = false) :
    handleDrawEnd s t = s := by
  simp [handleDrawEnd, h]

theorem handleDrawEnd_isDrawing (s : PenState) (t : Nat) :
    (handleDrawEnd s t).isDrawing = false := by
  by_cases h : s.isDrawing = false
  · simp [handleDrawEnd, h]
  · simp [handleDrawEnd, h]

/-! Claim theorems. -/

/-- Claim C9: `clearAll()` is idempotent on the stroke store: after one call
the store is empty, and a second immediate call leaves the state exactly as
after the first (and, being a total function, raises nothing). -/
theorem C9_clearAll_idempotent (s : PenState) :
    (clearAll s).strokes = [] ∧ clearAll (clearAll s) = clearAll s :=
  ⟨rfl, rfl⟩

/-- Claim C8: malformed event sequences are absorbed: a move with no session
in progress is a no-op, an end with no session in progress is a no-op, and a
duplicate end signal for the same session changes nothing beyond the first
end (so exactly one stroke is committed). -/
theorem C8_malformed_noop (s : PenState) (p : Point) (t1 t2 : Nat) :
    (s.isDrawing = false → handleDrawMove s p = s)
    ∧ (s.isDrawing = false → handleDrawEnd s t1 = s)
    ∧ handleDrawEnd (handleDrawEnd s t1) t2 = handleDrawEnd s t1 := by
  refine ⟨fun h => by simp [handleDrawMove, h],
          fun h => handleDrawEnd_not_drawing s t1 h, ?_⟩
  exact handleDrawEnd_not_drawing _ t2 (handleDrawEnd_isDrawing s t1)

/-- Witness for C8 at a concrete idle state. -/
theorem C8_malformed_noop_wit :
    handleDrawMove (initState .pen) ⟨1, 2⟩ = initState .pen
    ∧ handleDrawEnd (initState .pen) 5 = initState .pen
    ∧ handleDrawEnd (handleDrawEnd (initState .pen) 5) 6 = handleDrawEnd (initState .pen) 5 := by
  obtain ⟨h1, h2, h3⟩ := C8_malformed_noop (initState .pen) ⟨1, 2⟩ 5 6
  exact ⟨h1 rfl, h2 rfl, h3⟩

/-- Claim C10: `setActiveTool` validates at the public interface: it leaves
the current tool unchanged when the pen tool is disabled or when the name is
not one of pen/eraser/hand, and sets exactly the given name otherwise. -/
theorem C10_setActiveTool_validation (s : ToolState) (n : String) :
    (s.isEnabled = false → getCurrentTool (setActiveTool s n) = getCurrentTool s)
    ∧ (n ∉ validTools → getCurrentTool (setActiveTool s n) = getCurrentTool s)
    ∧ (s.isEnabled = true → n ∈ validTools → getCurrentTool (setActiveTool s n) = n) := by
  refine ⟨fun h => by simp [setActiveTool, h], fun h => ?_, fun h1 h2 => ?_⟩
  · by_cases hE : s.isEnabled = false
    · simp [setActiveTool, hE]
    · simp [setActiveTool, hE, h]
  · simp [setActiveTool, h1, h2, getCurrentTool]

/-- Witness for C10 at concrete tool states and names. -/
theorem C10_setActiveTool_validation_wit :
    getCurrentTool (setActiveTool { isEnabled := false, currentTool := "pen" } "eraser") = "pen"
    ∧ getCurrentTool (setActiveTool { isEnabled := true, currentTool := "pen" } "laser") = "pen"
    ∧ getCurrentTool (setActiveTool { isEnabled := true, currentTool := "pen" } "eraser")
        = "eraser" := by
  refine ⟨(C10_setActiveTool_validation { isEnabled := false, currentTool := "pen" } "eraser").1 rfl,
          (C10_setActiveTool_validation { isEnabled := true, currentTool := "pen" } "laser").2.1
            (by decide),
          (C10_setActiveTool_validation { isEnabled := true, currentTool := "pen" } "eraser").2.2
            rfl (by decide)⟩

/-- Counterexample to claim C2: with the eraser tool, a session opened at
clock 10 stores the live eraser stroke (element 0) under timestamp 10, but
ending the session at clock 20 re-stores the same element under timestamp
20; with the pen tool, a session opened at clock 10 and ended at clock 20 is
stored under timestamp 20, not the session-start time. -/
theorem C2_counterexample :
    c2Live.strokes.map (fun r => (r.elemId, r.timestamp)) = [(0, 10)]
    ∧ c2Done.strokes.map (fun r => (r.elemId, r.timestamp)) = [(0, 20)]
    ∧ c2PenDone.strokes.map (fun r => r.timestamp) = [20] := by
  decide

/-- Claim C2 (amended): the stored timestamp of a committed stroke is the
clock value at session end: `handleDrawEnd` stamps `now` on the stroke it
pushes, and when a live (temporary) eraser stroke was in the store it is
removed, so every store entry for the live element carries the end-time
stamp. -/
theorem C2_commit_stamps_end_time (s : PenState) (now : Nat) (i : Nat)
    (hdraw : s.isDrawing = true) (hcp : s.currentPath = some i)
    (htmp : s.temporaryEraserStroke.isSome = true)
    (honly : ∀ r ∈ s.strokes, r.elemId = i → r.isTemporary = true) :
    ({ type := s.currentTool, elemId := i, timestamp := now, isTemporary := false } : StrokeRec)
        ∈ (handleDrawEnd s now).strokes
    ∧ ∀ r ∈ (handleDrawEnd s now).strokes, r.elemId = i → r.timestamp = now := by
  have hmem : ∀ r : StrokeRec, r ∈ (handleDrawEnd s now).strokes ↔
      r ∈ (s.strokes.filter (fun q => !q.isTemporary)
            ++ [{ type := s.currentTool, elemId := i, timestamp := now, isTemporary := false }]) := by
    intro r
    simp only [handleDrawEnd, hdraw, hcp, htmp]
    simp [renderStrokes, mem_sortByTs]
  constructor
  · exact (hmem _).mpr (by simp)
  · intro r hr hid
    rcases List.mem_append.mp ((hmem r).mp hr) with hF | hL
    · rcases List.mem_filter.mp hF with ⟨hrs, hnt⟩
      have := honly r hrs hid
      simp [this] at hnt
    · simp only [List.mem_singleton] at hL
      rw [hL]

/-- Witness for the amended C2 at the concrete live-eraser state `c2Live`. -/
theorem C2_commit_stamps_end_time_wit :
    ({ type := .eraser, elemId := 0, timestamp := 20, isTemporary := false } : StrokeRec)
        ∈ (handleDrawEnd c2Live 20).strokes
    ∧ ∀ r ∈ (handleDrawEnd c2Live 20).strokes, r.elemId = 0 → r.timestamp = 20 := by
  have h := C2_commit_stamps_end_time c2Live 20 0 (by decide) (by decide) (by decide)
    (by decide)
  exact ⟨h.1, h.2⟩

/-- Counterexample to claim C3: opening a second erase session (clock 6)
without an intervening session end does not remove the stale temporary
eraser stroke of the first session (clock 5): both uncommitted strokes are
in the store. -/
theorem C3_counterexample :
    c3Two.strokes.map (fun r => (r.timestamp, r.isTemporary)) = [(5, true), (6, true)]
    ∧ (c3Two.strokes.filter (fun r => r.isTemporary)).length = 2 := by
  decide

/-- Claim C3 (amended): `startErasing` inserts the new live eraser stroke
without purging stale temporaries, so two session starts without an
intervening end leave two uncommitted strokes in the store; temporaries are
instead purged at session end: `handleDrawEnd` removes every temporary
stroke before committing, so after any session end the store holds no
uncommitted stroke. -/
theorem C3_end_purges_temporaries (s : PenState) (now : Nat) (i : Nat)
    (hdraw : s.isDrawing = true) (hcp : s.currentPath = some i)
    (htmp : s.temporaryEraserStroke.isSome = true) :
    ∀ r ∈ (handleDrawEnd s now).strokes, r.isTemporary = false := by
  intro r hr
  have hmem : r ∈ (s.strokes.filter (fun q => !q.isTemporary)
      ++ [{ type := s.currentTool, elemId := i, timestamp := now, isTemporary := false }]) := by
    revert hr
    simp only [handleDrawEnd, hdraw, hcp, htmp]
    simp [renderStrokes, mem_sortByTs]
  rcases List.mem_append.mp hmem with hF | hL
  · have := (List.mem_filter.mp hF).2
    simpa using this
  · simp only [List.mem_singleton] at hL
    rw [hL]

/-- Witness for the amended C3: the stroke stored after ending the
double-start scenario `c3Two` is not temporary. -/
theorem C3_end_purges_temporaries_wit :
    ({ type := .eraser, elemId := 1, timestamp := 7, isTemporary := false }
      : StrokeRec).isTemporary = false :=
  C3_end_purges_temporaries c3Two 7 1 (by decide) (by decide) (by decide)
    { type := .eraser, elemId := 1, timestamp := 7, isTemporary := false } (by decide)

/-- Counterexample to claim C4: after `updateOptions({eraserWidth: 99})`,
the composite pass clips the existing pen stroke with width 99, not with the
original width snapshot 15 of the eraser stroke, which is still stored on
its element. -/
theorem C4_counterexample :
    (renderPlan c4Erased).map (fun e => e.clip.map (fun c => c.width)) = [[15]]
    ∧ (renderPlan c4After).map (fun e => e.clip.map (fun c => c.width)) = [[99]]
    ∧ (lookupD c4After.elems 1).widthAttr = 15 := by
  decide

/-- Claim C4 (amended): the composite pass stamps the *current*
`eraserWidth` on every applicable eraser clone, so after
`updateOptions({eraserWidth: w})` every clip entry of every render-plan
entry has width `w`, regardless of the width snapshot stored on the eraser
element at stroke start. -/
theorem C4_render_uses_current_width (s : PenState) (w : Nat)
    (entry : PlanEntry) (c : ClipEntry)
    (hentry : entry ∈ renderPlan
      (updateOptions s { lineWidth := none, lineColor := none, eraserWidth := some w }))
    (hc : c ∈ entry.clip) : c.width = w := by
  rcases List.mem_map.mp hentry with ⟨pst, hpst, hEq⟩
  rw [← hEq] at hc
  rcases List.mem_map.mp hc with ⟨e, he, hcEq⟩
  rw [← hcEq]
  simp [updateOptions]

/-- Witness for the amended C4 at the concrete scenario `c4After`. -/
theorem C4_render_uses_current_width_wit :
    ({ d := [⟨5, 0⟩], width := 99 } : ClipEntry).width = 99 :=
  C4_render_uses_current_width c4Erased 99
    { penD := [⟨0, 0⟩, ⟨10, 0⟩], penWidth := 3, penColor := some "#000000",
      clip := [{ d := [⟨5, 0⟩], width := 99 }] }
    { d := [⟨5, 0⟩], width := 99 } (by decide) (by decide)

theorem isPen_eq_false_iff (t : StrokeType) : t.isPen = false ↔ t = .eraser := by
  cases t <;> simp [StrokeType.isPen]

/-- Claim C1: in every composite pass, an eraser stroke `e` of the store
contributes to the mask of the `k`-th rendered pen stroke `d` iff
`e.timestamp > d.timestamp`; the mask content is exactly the applicable
erasers (each rendered at the current eraser width); a pen stroke with no
strictly later eraser gets an empty mask; and the pen geometry is always the
own element geometry of the stroke, verbatim. -/
theorem C1_temporal_masking (s : PenState) (k : Nat)
    (hk : k < (penStrokesOf (sortByTs s.strokes)).length) :
    ∃ hk2 : k < (renderPlan s).length,
      (∀ e : StrokeRec,
          e ∈ applicableErasers (sortByTs s.strokes)
              ((penStrokesOf (sortByTs s.strokes)).get ⟨k, hk⟩)
          ↔ e ∈ s.strokes ∧ e.type = .eraser
            ∧ ((penStrokesOf (sortByTs s.strokes)).get ⟨k, hk⟩).timestamp < e.timestamp)
      ∧ ((renderPlan s).get ⟨k, hk2⟩).clip
          = (applicableErasers (sortByTs s.strokes)
              ((penStrokesOf (sortByTs s.strokes)).get ⟨k, hk⟩)).map
              (fun e => { d := (lookupD s.elems e.elemId).d, width := s.eraserWidth })
      ∧ ((∀ e ∈ s.strokes, e.type = .eraser →
            e.timestamp ≤ ((penStrokesOf (sortByTs s.strokes)).get ⟨k, hk⟩).timestamp)
          → ((renderPlan s).get ⟨k, hk2⟩).clip = [])
      ∧ ((renderPlan s).get ⟨k, hk2⟩).penD
          = (lookupD s.elems ((penStrokesOf (sortByTs s.strokes)).get ⟨k, hk⟩).elemId).d := by
  have hk2 : k < (renderPlan s).length := by
    simpa [renderPlan] using hk
  have hget : (renderPlan s).get ⟨k, hk2⟩
      = planEntryFor s (sortByTs s.strokes)
          ((penStrokesOf (sortByTs s.strokes)).get ⟨k, hk⟩) := by
    simp [renderPlan, List.get_eq_getElem, List.getElem_map]
  have hchar : ∀ e : StrokeRec,
      e ∈ applicableErasers (sortByTs s.strokes)
          ((penStrokesOf (sortByTs s.strokes)).get ⟨k, hk⟩)
      ↔ e ∈ s.strokes ∧ e.type = .eraser
        ∧ ((penStrokesOf (sortByTs s.strokes)).get ⟨k, hk⟩).timestamp < e.timestamp := by
    intro e
    simp only [applicableErasers, eraserStrokesOf, List.mem_filter, mem_sortByTs,
      decide_eq_true_eq, Bool.not_eq_eq_eq_not, Bool.not_true, isPen_eq_false_iff]
    tauto
  refine ⟨hk2, hchar, ?_, ?_, ?_⟩
  · rw [hget]
    rfl
  · intro hle
    have hemp : applicableErasers (sortByTs s.strokes)
        ((penStrokesOf (sortByTs s.strokes)).get ⟨k, hk⟩) = [] := by
      cases hA : applicableErasers (sortByTs s.strokes)
          ((penStrokesOf (sortByTs s.strokes)).get ⟨k, hk⟩) with
      | nil => rfl
      | cons a as =>
        have ha : a ∈ applicableErasers (sortByTs s.strokes)
            ((penStrokesOf (sortByTs s.strokes)).get ⟨k, hk⟩) := by
          rw [hA]; simp
        rcases (hchar a).mp ha with ⟨h1, h2, h3⟩
        exact absurd h3 (not_lt.mpr (hle a h1 h2))
    rw [hget]
    simp only [planEntryFor]
    rw [hemp]
    rfl
  · rw [hget]
    rfl

/-- Witness for C1 at the concrete store `c1State`: the strictly later
eraser (timestamp 2) is applicable to the pen stroke (timestamp 1), the
earlier eraser (timestamp 0) is not. -/
theorem C1_temporal_masking_wit :
    ({ type := .eraser, elemId := 1, timestamp := 2, isTemporary := false } : StrokeRec)
      ∈ applicableErasers (sortByTs c1State.strokes)
          ((penStrokesOf (sortByTs c1State.strokes)).get ⟨0, by decide⟩)
    ∧ ({ type := .eraser, elemId := 2, timestamp := 0, isTemporary := false } : StrokeRec)
      ∉ applicableErasers (sortByTs c1State.strokes)
          ((penStrokesOf (sortByTs c1State.strokes)).get ⟨0, by decide⟩) := by
  obtain ⟨hk2, hiff, hclip, hempty, hpen⟩ := C1_temporal_masking c1State 0 (by decide)
  constructor
  · exact (hiff _).mpr ⟨by decide, rfl, by decide⟩
  · intro hmem
    exact absurd ((hiff _).mp hmem).2.2 (by decide)

/-- Claim C6: when the timestamps of the store are non-decreasing in array order
(the invariant maintained by monotone commit clocks, ties allowed) and all
strokes are pen strokes, the stable sort leaves the store unchanged and the
render plan is exactly the strokes of the store, in store order, each rendered
verbatim with no clip. -/
theorem C6_order_preservation (s : PenState)
    (hsorted : List.Pairwise (fun a b => a.timestamp ≤ b.timestamp) s.strokes)
    (hpen : ∀ r ∈ s.strokes, r.type = .pen) :
    renderPlan s = s.strokes.map (fun r =>
      { penD := (lookupD s.elems r.elemId).d
        penWidth := (lookupD s.elems r.elemId).widthAttr
        penColor := (lookupD s.elems r.elemId).colorAttr
        clip := [] }) := by
  have hs : sortByTs s.strokes = s.strokes := sortByTs_eq_self _ hsorted
  have hpens : penStrokesOf s.strokes = s.strokes := by
    apply List.filter_eq_self.mpr
    intro a ha
    rw [hpen a ha]
    rfl
  have hnoer : eraserStrokesOf s.strokes = [] := by
    apply List.filter_eq_nil_iff.mpr
    intro a ha
    rw [hpen a ha]
    simp [StrokeType.isPen]
  rw [renderPlan, hs, hpens]
  apply List.map_congr_left
  intro r hr
  simp [planEntryFor, applicableErasers, hnoer]

/-- Witness for C6: three pen sessions committed at clocks 1, 1, 2 render as
exactly those three strokes in commit order, unclipped. -/
theorem C6_order_preservation_wit :
    renderPlan c6State =
      [{ penD := [⟨0, 0⟩], penWidth := 3, penColor := some "#000000", clip := [] },
       { penD := [⟨1, 0⟩], penWidth := 3, penColor := some "#000000", clip := [] },
       { penD := [⟨2, 0⟩], penWidth := 3, penColor := some "#000000", clip := [] }] := by
  rw [C6_order_preservation c6State (by decide) (by decide)]
  decide

theorem applyMoves_pen : ∀ (ps : List Point) (st : PenState) (i : Nat),
    st.isDrawing = true → st.currentTool = .pen → st.currentPath = some i →
    hasId st.elems i →
    (applyMoves st ps).isDrawing = true
    ∧ (applyMoves st ps).currentTool = .pen
    ∧ (applyMoves st ps).currentPath = some i
    ∧ (applyMoves st ps).currentPathData = st.currentPathData ++ ps
    ∧ (applyMoves st ps).strokes = st.strokes
    ∧ (applyMoves st ps).temporaryEraserStroke = st.temporaryEraserStroke
    ∧ hasId (applyMoves st ps).elems i
    ∧ (ps = [] → (applyMoves st ps).elems = st.elems)
    ∧ (ps ≠ [] →
        lookupD (applyMoves st ps).elems i
          = { lookupD st.elems i with d := st.currentPathData ++ ps }) := by
  intro ps
  induction ps with
  | nil =>
    intro st i h1 h2 h3 h4
    exact ⟨h1, h2, h3, by simp [applyMoves], rfl, rfl, h4, fun _ => rfl, fun h => absurd rfl h⟩
  | cons p ps ih =>
    intro st i h1 h2 h3 h4
    have hstep : step st (.mouseMove p) =
        { st with currentPathData := st.currentPathData ++ [p],
                  elems := setElemD st.elems i (st.currentPathData ++ [p]) } := by
      simp [step, handleDrawMove, h1, h2, continueDrawing, h3]
    have hA : applyMoves st (p :: ps) = applyMoves (step st (.mouseMove p)) ps := rfl
    rw [hA, hstep]
    obtain ⟨m1, m2, m3, m4, m5, m6, m7, m8, m9⟩ :=
      ih { st with currentPathData := st.currentPathData ++ [p],
                   elems := setElemD st.elems i (st.currentPathData ++ [p]) } i
        h1 h2 h3 (hasId_setElemD _ _ _ _ h4)
    refine ⟨m1, m2, m3, ?_, m5, m6, m7, ?_, ?_⟩
    · rw [m4]
      simp
    · intro h
      exact absurd h (by simp)
    · intro _
      cases hps : ps with
      | nil =>
        rw [hps] at m8
        rw [m8 rfl, lookupD_setElemD_self _ _ _ h4]
      | cons q qs =>
        rw [hps] at m9
        rw [m9 (by simp), lookupD_setElemD_self _ _ _ h4]
        simp

/-- Claim C7: a session cancel behaves identically to a normal session end
(`touchcancel` and `touchend` are wired to the same handler), and ending by
cancel a pen stroke begun at `p0` and extended through `ps` commits a stroke
whose element geometry is all `ps.length + 1` captured points. -/
theorem C7_cancel_commits_all_points (s : PenState) (t0 t1 : Nat) (p0 : Point) (ps : List Point)
    (htool : s.currentTool = .pen)
    (htemp : s.temporaryEraserStroke = none)
    (hwf : ∀ q ∈ s.elems, q.1 < s.nextId) :
    (∀ s2 t, step s2 (.touchCancel t) = step s2 (.touchEnd t))
    ∧ ({ type := .pen, elemId := s.nextId, timestamp := t1, isTemporary := false } : StrokeRec)
        ∈ (step (applyMoves (step s (.touchStart t0 1 p0)) ps) (.touchCancel t1)).strokes
    ∧ (lookupD (step (applyMoves (step s (.touchStart t0 1 p0)) ps) (.touchCancel t1)).elems
        s.nextId).d = p0 :: ps := by
  refine ⟨fun s2 t => rfl, ?_⟩
  have hstart : step s (.touchStart t0 1 p0) =
      { s with isDrawing := true,
               elems := s.elems ++
                 [(s.nextId, { d := [p0], widthAttr := s.lineWidth,
                               colorAttr := some s.lineColor })],
               currentPath := some s.nextId,
               currentPathData := [p0],
               nextId := s.nextId + 1 } := by
    simp [step, handleDrawStart, htool, startDrawing]
  rw [hstart]
  obtain ⟨m1, m2, m3, m4, m5, m6, m7, m8, m9⟩ :=
    applyMoves_pen ps
      { s with isDrawing := true,
               elems := s.elems ++
                 [(s.nextId, { d := [p0], widthAttr := s.lineWidth,
                               colorAttr := some s.lineColor })],
               currentPath := some s.nextId,
               currentPathData := [p0],
               nextId := s.nextId + 1 } s.nextId
      rfl htool rfl
      ⟨(s.nextId, { d := [p0], widthAttr := s.lineWidth, colorAttr := some s.lineColor }),
        by simp, rfl⟩
  have hfresh : ∀ q ∈ s.elems, q.1 ≠ s.nextId := fun q hq =>
    Nat.ne_of_lt (hwf q hq)
  have hlook : (lookupD (applyMoves
      { s with isDrawing := true,
               elems := s.elems ++
                 [(s.nextId, { d := [p0], widthAttr := s.lineWidth,
                               colorAttr := some s.lineColor })],
               currentPath := some s.nextId,
               currentPathData := [p0],
               nextId := s.nextId + 1 } ps).elems s.nextId).d = p0 :: ps := by
    cases hps : ps with
    | nil =>
      rw [hps] at m8
      rw [m8 rfl]
      rw [lookupD_append_fresh s.elems s.nextId _ hfresh]
    | cons q qs =>
      rw [hps] at m9
      rw [m9 (by simp)]
      rw [lookupD_append_fresh s.elems s.nextId _ hfresh]
      simp
  have hTmp : (applyMoves
      { s with isDrawing := true,
               elems := s.elems ++
                 [(s.nextId, { d := [p0], widthAttr := s.lineWidth,
                               colorAttr := some s.lineColor })],
               currentPath := some s.nextId,
               currentPathData := [p0],
               nextId := s.nextId + 1 } ps).temporaryEraserStroke = none := by
    rw [m6]
    exact htemp
  constructor
  · show _ ∈ (handleDrawEnd _ t1).strokes
    have hmem2 : (handleDrawEnd (applyMoves
        { s with isDrawing := true,
                 elems := s.elems ++
                   [(s.nextId, { d := [p0], widthAttr := s.lineWidth,
                                 colorAttr := some s.lineColor })],
                 currentPath := some s.nextId,
                 currentPathData := [p0],
                 nextId := s.nextId + 1 } ps) t1).strokes
        = sortByTs ((applyMoves
        { s with isDrawing := true,
                 elems := s.elems ++
                   [(s.nextId, { d := [p0], widthAttr := s.lineWidth,
                                 colorAttr := some s.lineColor })],
                 currentPath := some s.nextId,
                 currentPathData := [p0],
                 nextId := s.nextId + 1 } ps).strokes ++
          [{ type := .pen, elemId := s.nextId, timestamp := t1, isTemporary := false }]) := by
      simp [handleDrawEnd, m1, m3, hTmp, renderStrokes, m2]
    rw [hmem2, mem_sortByTs]
    simp
  · show (lookupD (handleDrawEnd _ t1).elems s.nextId).d = p0 :: ps
    have helems : (handleDrawEnd (applyMoves
        { s with isDrawing := true,
                 elems := s.elems ++
                   [(s.nextId, { d := [p0], widthAttr := s.lineWidth,
                                 colorAttr := some s.lineColor })],
                 currentPath := some s.nextId,
                 currentPathData := [p0],
                 nextId := s.nextId + 1 } ps) t1).elems
        = (applyMoves
        { s with isDrawing := true,
                 elems := s.elems ++
                   [(s.nextId, { d := [p0], widthAttr := s.lineWidth,
                                 colorAttr := some s.lineColor })],
                 currentPath := some s.nextId,
                 currentPathData := [p0],
                 nextId := s.nextId + 1 } ps).elems := by
      simp [handleDrawEnd, m1, m3, hTmp, renderStrokes]
    rw [helems, hlook]

/-- Witness for C7: a pen stroke begun at (0,0) and extended three times,
ended by `touchcancel`, is committed with all four points. -/
theorem C7_cancel_commits_all_points_wit :
    ({ type := .pen, elemId := 0, timestamp := 9, isTemporary := false } : StrokeRec)
      ∈ (step (applyMoves (step (initState .pen) (.touchStart 8 1 ⟨0, 0⟩))
          [⟨1, 0⟩, ⟨2, 0⟩, ⟨3, 0⟩]) (.touchCancel 9)).strokes
    ∧ (lookupD (step (applyMoves (step (initState .pen) (.touchStart 8 1 ⟨0, 0⟩))
          [⟨1, 0⟩, ⟨2, 0⟩, ⟨3, 0⟩]) (.touchCancel 9)).elems 0).d
        = [⟨0, 0⟩, ⟨1, 0⟩, ⟨2, 0⟩, ⟨3, 0⟩] := by
  obtain ⟨h1, h2, h3⟩ := C7_cancel_commits_all_points (initState .pen) 8 9 ⟨0, 0⟩
    [⟨1, 0⟩, ⟨2, 0⟩, ⟨3, 0⟩] rfl rfl (by simp [initState])
  exact ⟨h2, h3⟩

/-- Claim C5 (code bug): `clearAll()` mid-session empties the store but does
not terminate the live-stroke state (`isDrawing` stays true and
`currentPath` still references the live path), so the session-ending
mouse-up re-introduces the pre-clear stroke — captured at (1,2) before the
clear — into the store, stamped with the end-time clock. -/
theorem C5_clear_midsession_bug :
    c5Cleared.strokes = []
    ∧ c5Cleared.isDrawing = true
    ∧ c5Cleared.currentPath = some 0
    ∧ c5Resurrected.strokes.map (fun r => (r.type.isPen, r.elemId, r.timestamp))
        = [(true, 0, 6)]
    ∧ (lookupD c5Resurrected.elems 0).d = [⟨1, 2⟩] := by
  decide

end PenToolModel
